import Mathlib

/-!
Verification development for the pug-to-html transpiler in src/main.rs.

The transpiler walks a tree-sitter syntax tree for a pug template and appends
HTML text to an output buffer, recording, for every piece of text sliced from
the source, a `Range` pairing the output span with the source span.

The embedding below mirrors the Rust code:
  * bytes of the source and of the output buffer are modelled as `List Char`
    (each `Char` stands for one byte; `.len()` becomes `List.length`);
  * a tree-sitter node is `SNode` (kind, named flag, byte range, children,
    where children are all children, named and anonymous alike, in order);
  * `utf8_text` slices the source byte range of a node;
  * fallible operations (the `.unwrap()` calls on missing children) are
    modelled with `Option`: `none` is a panic of the Rust program;
  * the tree-sitter cursor movements `goto_first_child` and
    `goto_next_sibling` (which stay put when there is no such node) are
    modelled by index arithmetic with `clamp_next`.
-/

namespace Pug

/-- A tree-sitter source byte range, as used in `push_range`. -/
structure TSRange where
  start_byte : Nat
  end_byte : Nat
deriving DecidableEq, Repr

/-- A tree-sitter syntax node: kind, named flag, source range, children
(all children, in document order; anonymous children carry `is_named = false`). -/
inductive SNode where
  | mk (kind : String) (is_named : Bool) (range : TSRange) (children : List SNode)

def SNode.kind : SNode → String
  | .mk k _ _ _ => k

def SNode.is_named : SNode → Bool
  | .mk _ b _ _ => b

def SNode.range : SNode → TSRange
  | .mk _ _ r _ => r

def SNode.children : SNode → List SNode
  | .mk _ _ _ cs => cs

instance : Inhabited SNode := ⟨SNode.mk "" false ⟨0, 0⟩ []⟩

/-- `node.named_children(..)` of tree-sitter: the named children, in order. -/
def SNode.namedChildren (n : SNode) : List SNode :=
  n.children.filter (fun c => c.is_named)

/-- `node.utf8_text(source)`: the slice of the source over the node's range. -/
def utf8_text (source : List Char) (r : TSRange) : List Char :=
  (source.drop r.start_byte).take (r.end_byte - r.start_byte)

/-- The `Range` struct of the Rust code: an output (html) span paired with a
source (pug) span.  Field order follows the source. -/
structure Range where
  html_end : Nat
  html_start : Nat
  pug_end : Nat
  pug_start : Nat
deriving DecidableEq, Repr

/-- The `State` struct: output buffer, source text, correspondence list. -/
structure State where
  html_text : List Char
  pug_text : List Char
  ranges : List Range
deriving DecidableEq, Repr

/-- `push_range`: append `to_push` to the output; when a source range is given,
first record a correspondence from the output span the text will occupy. -/
def push_range (state : State) (to_push : List Char) (pug_range : Option TSRange) : State :=
  let state : State :=
    match pug_range with
    | some range =>
        let html_len := state.html_text.length
        { state with
          ranges := state.ranges ++
            [{ html_start := html_len
               html_end := html_len + to_push.length
               pug_start := range.start_byte
               pug_end := range.end_byte }] }
    | none => state
  { state with html_text := state.html_text ++ to_push }

/-- `push_range_surround`: synthesized `surround`, then the recorded text,
then `surround` again. -/
def push_range_surround (state : State) (to_push : List Char) (pug_range : TSRange)
    (surround : List Char) : State :=
  push_range (push_range (push_range state surround none) to_push (some pug_range))
    surround none

/-- The single-quote character, passed as the surround in the Rust code. -/
def squote : List Char := [Char.ofNat 39]

/-- `is_void_element`: the Rust `match` over the exact tag-name bytes. -/
def is_void_element (tag_name : List Char) : Bool :=
  tag_name == "area".toList || tag_name == "base".toList || tag_name == "br".toList ||
  tag_name == "col".toList || tag_name == "embed".toList || tag_name == "hr".toList ||
  tag_name == "img".toList || tag_name == "input".toList || tag_name == "link".toList ||
  tag_name == "meta".toList || tag_name == "param".toList || tag_name == "source".toList ||
  tag_name == "track".toList || tag_name == "wbr".toList

/-- One iteration of the `visit_attributes` loop body: render a single
attribute (name, synthesized `=`, then the value by kind). `none` models the
`unwrap` panic when the attribute has no named children. -/
def visit_attribute (attr_node : SNode) (source : List Char) (state : State) : Option State :=
  match attr_node.namedChildren with
  | [] => none
  | attribute_name :: rest =>
    let name_text := utf8_text source attribute_name.range
    let state := push_range state name_text (some attribute_name.range)
    let state := push_range state "=".toList none
    match rest.head? with
    | some attribute_value =>
      let text := utf8_text source attribute_value.range
      match attribute_value.kind with
      | "javascript" => some (push_range_surround state text attribute_value.range squote)
      | "quoted_attribute_value" => some (push_range state text (some attribute_value.range))
      | _ => some state
    | none => some (push_range_surround state name_text attribute_name.range squote)

/-- The `visit_attributes` loop over the named children of the attributes
block, joining with the synthesized `, ` separator. -/
def visit_attributes_list (attrs : List SNode) (first : Bool) (source : List Char)
    (state : State) : Option State :=
  match attrs with
  | [] => some state
  | a :: rest =>
    let state := if first then state else push_range state ", ".toList none
    match visit_attribute a source state with
    | some s => visit_attributes_list rest false source s
    | none => none

/-- `visit_attributes`: iterate the named children of an `attributes` node. -/
def visit_attributes (node : SNode) (source : List Char) (state : State) : Option State :=
  visit_attributes_list node.namedChildren true source state

/-- `goto_next_sibling` on a cursor standing at child index `i` of a node with
`len` children: move to `i + 1` when that child exists, otherwise stay. -/
def clamp_next (i len : Nat) : Nat :=
  if i + 1 < len then i + 1 else i

/-- Size of a node (for termination of the traversal). -/
def nodeSize : SNode → Nat
  | .mk _ _ _ cs => 1 + listSizeAux cs
where
  listSizeAux : List SNode → Nat
    | [] => 0
    | c :: cs => nodeSize c + listSizeAux cs

/-- Size of a list of nodes. -/
def listSize : List SNode → Nat
  | [] => 0
  | c :: cs => nodeSize c + listSize cs

theorem listSizeAux_eq (l : List SNode) : nodeSize.listSizeAux l = listSize l := by
  induction l with
  | nil => rfl
  | cons c cs ih => simp [nodeSize.listSizeAux, listSize, ih]

theorem nodeSize_eq (n : SNode) : nodeSize n = 1 + listSize n.children := by
  cases n with
  | mk k b r cs => simp [nodeSize, SNode.children, listSizeAux_eq]

theorem nodeSize_pos (n : SNode) : 0 < nodeSize n := by
  rw [nodeSize_eq]; omega

theorem listSize_cons (c : SNode) (cs : List SNode) :
    listSize (c :: cs) = nodeSize c + listSize cs := rfl

theorem nodeSize_le_of_mem {c : SNode} {l : List SNode} (h : c ∈ l) :
    nodeSize c ≤ listSize l := by
  induction l with
  | nil => cases h
  | cons a as ih =>
    rcases List.mem_cons.mp h with h | h
    · subst h; simp [listSize_cons]
    · have := ih h; simp [listSize_cons]; omega

theorem listSize_filter_le (p : SNode → Bool) (l : List SNode) :
    listSize (l.filter p) ≤ listSize l := by
  induction l with
  | nil => simp
  | cons a as ih =>
    by_cases h : p a
    · simp [List.filter_cons, h, listSize_cons]; omega
    · simp [List.filter_cons, h, listSize_cons]
      have := nodeSize_pos a; omega

theorem le_named (node : SNode) : listSize node.namedChildren + 1 ≤ nodeSize node := by
  have h1 := listSize_filter_le (fun c => c.is_named) node.children
  rw [nodeSize_eq]
  simp only [SNode.namedChildren]
  omega

theorem le_tagrest {node name_node : SNode} {rest : List SNode}
    (h : node.namedChildren = name_node :: rest) :
    listSize rest + 2 ≤ nodeSize node := by
  have h1 := le_named node
  rw [h, listSize_cons] at h1
  have h2 := nodeSize_pos name_node
  omega

theorem clamp_next_lt {i len : Nat} (h : i < len) : clamp_next i len < len := by
  unfold clamp_next; split <;> omega

theorem le_getD {node : SNode} {i : Nat} (h : i < node.children.length) :
    listSize (node.children.getD i default).namedChildren + 2 ≤ nodeSize node := by
  have hmem : node.children.getD i default ∈ node.children := by
    rw [List.getD_eq_getElem?_getD, List.getElem?_eq_getElem h]
    exact List.getElem_mem h
  have h1 := nodeSize_le_of_mem hmem
  have h2 := le_named (node.children.getD i default)
  have h3 := nodeSize_eq node
  omega

theorem le_piperest {node c : SNode} {rest : List SNode}
    (h : node.children = c :: rest) (p : SNode → Bool) :
    listSize (rest.filter p) + 2 ≤ nodeSize node := by
  have h1 := listSize_filter_le p rest
  have h2 := nodeSize_eq node
  rw [h, listSize_cons] at h2
  have h3 := nodeSize_pos c
  omega

theorem dec_cons_head (c : SNode) (cs : List SNode) :
    3 * nodeSize c + 2 < 3 * listSize (c :: cs) + 3 := by
  rw [listSize_cons]; omega

theorem dec_cons_tail (c : SNode) (cs : List SNode) :
    3 * listSize cs + 3 < 3 * listSize (c :: cs) + 3 := by
  rw [listSize_cons]; have h1 := nodeSize_pos c; omega

theorem dec_named1 (node : SNode) :
    3 * listSize node.namedChildren + 3 < 3 * nodeSize node + 1 := by
  have h1 := le_named node; omega

theorem dec_named2 (node : SNode) :
    3 * listSize node.namedChildren + 3 < 3 * nodeSize node + 2 := by
  have h1 := le_named node; omega

theorem dec_visit (node : SNode) :
    3 * nodeSize node + 1 < 3 * nodeSize node + 2 := by omega

theorem dec_tag {node name_node : SNode} {rest : List SNode}
    (h : node.namedChildren = name_node :: rest) :
    3 * listSize rest + 3 < 3 * nodeSize node + 1 := by
  have h1 := le_tagrest h; omega

theorem dec_getD (node : SNode) (i : Nat) (hi : i < node.children.length) :
    3 * listSize (node.children.getD i default).namedChildren + 3 <
      3 * nodeSize node + 1 := by
  have h1 := le_getD hi; omega

theorem dec_pipe {node c : SNode} {rest : List SNode}
    (h : node.children = c :: rest) (p : SNode → Bool) :
    3 * listSize (rest.filter p) + 3 < 3 * nodeSize node + 1 := by
  have h1 := le_piperest h p; omega

mutual

/-- `traverse_tree`: the dispatcher.  Unnamed nodes are ignored; container
kinds recurse; interpolation emits the inert script marker; inert kinds and
unknown kinds produce nothing (the Rust code prints a diagnostic for unknown
kinds but leaves the state untouched). -/
def traverse_tree (node : SNode) (source : List Char) (state : State) : Option State :=
  if node.is_named = true then
    match node.kind with
    | "source_file" | "children" =>
        traverse_children node.namedChildren source state
    | "escaped_string_interpolation" =>
        match node.namedChildren.head? with
        | some interpolation_content =>
            let text := utf8_text source interpolation_content.range
            let state := push_range state "<script>return ".toList none
            let state := push_range state text (some interpolation_content.range)
            some (push_range state ";</script>".toList none)
        | none => some state
    | "tag_interpolation" => visit_tag_interpolation node source state
    | "pipe" => visit_pipe node source state
    | "conditional" => visit_conditional node source state
    | "tag" => visit_tag node source state
    | "attributes" => visit_attributes node source state
    | "content" =>
        match traverse_children node.namedChildren source state with
        | some state => some (push_range state (utf8_text source node.range) (some node.range))
        | none => none
    | "keyword" | "mixin_attributes" | "comment" => some state
    | _ => some state
  else some state
termination_by 3 * nodeSize node + 2
decreasing_by
  all_goals first
    | apply dec_named2
    | apply dec_visit

/-- Sequential traversal of a list of nodes (the `for child in children`
loops that re-enter `traverse_tree`). -/
def traverse_children (nodes : List SNode) (source : List Char) (state : State) : Option State :=
  match nodes with
  | [] => some state
  | n :: rest =>
    match traverse_tree n source state with
    | some s => traverse_children rest source s
    | none => none
termination_by 3 * listSize nodes + 3
decreasing_by
  all_goals first
    | apply dec_cons_head
    | apply dec_cons_tail

/-- `visit_tag`: emit `<`, the mapped tag name, then loop over the remaining
named children; afterwards close the open tag (when the loop never did) and
append the synthesized closing tag for non-void names. -/
def visit_tag (node : SNode) (source : List Char) (state : State) : Option State :=
  match h : node.namedChildren with
  | [] => none
  | name_node :: rest =>
    let name := utf8_text source name_node.range
    let state := push_range state "<".toList none
    let state := push_range state name (some name_node.range)
    match visit_tag_loop name rest source state false with
    | none => none
    | some (state, has_closed_open_tag) =>
      let state := if has_closed_open_tag then state else push_range state ">".toList none
      let state :=
        if is_void_element name then state
        else push_range state ("</".toList ++ name ++ ">".toList) none
      some state
termination_by 3 * nodeSize node + 1
decreasing_by
  all_goals (apply dec_tag; assumption)

/-- The `for child_node in child_nodes` loop of `visit_tag`, with the
`has_closed_open_tag` flag; returns the state and the flag (the `break` in
the void case stops the loop). -/
def visit_tag_loop (name : List Char) (childs : List SNode) (source : List Char)
    (state : State) (has_closed : Bool) : Option (State × Bool) :=
  match childs with
  | [] => some (state, has_closed)
  | child :: rest =>
    if child.kind = "attributes" then
      let state := push_range state " ".toList none
      match traverse_tree child source state with
      | some s => visit_tag_loop name rest source s has_closed
      | none => none
    else if is_void_element name then
      some (push_range state "/>".toList none, has_closed)
    else
      let state := if has_closed then state else push_range state ">".toList none
      if child.kind = "content" then
        match traverse_tree child source state with
        | some s => visit_tag_loop name rest source s true
        | none => none
      else if child.kind = "children" then
        match traverse_tree child source state with
        | some s => visit_tag_loop name rest source s true
        | none => none
      else
        visit_tag_loop name rest source state true
termination_by 3 * listSize childs + 3
decreasing_by
  all_goals first
    | apply dec_cons_head
    | apply dec_cons_tail

/-- `visit_conditional`: a fresh cursor walks to the second child; a
`javascript` child there is emitted as the inert marker; then the cursor
advances (twice in that case, once otherwise, staying put at the end of the
sibling list) and the named children of the node it rests on are traversed. -/
def visit_conditional (node : SNode) (source : List Char) (state : State) : Option State :=
  match h : node.children with
  | [] =>
      traverse_children node.namedChildren source state
  | _ :: _ =>
      let len := node.children.length
      let n1 := node.children.getD (clamp_next 0 len) default
      if n1.kind = "javascript" then
        let state := push_range state "<script>return ".toList none
        let state := push_range state (utf8_text source n1.range) (some n1.range)
        let state := push_range state ";</script>".toList none
        traverse_children
          (node.children.getD
            (clamp_next (clamp_next (clamp_next 0 len) len) len) default).namedChildren
          source state
      else
        traverse_children
          (node.children.getD (clamp_next (clamp_next 0 len) len) default).namedChildren
          source state
termination_by 3 * nodeSize node + 1
decreasing_by
  all_goals first
    | apply dec_named1
    | (apply dec_getD
       apply clamp_next_lt
       apply clamp_next_lt
       apply clamp_next_lt
       simp_all)
    | (apply dec_getD
       apply clamp_next_lt
       apply clamp_next_lt
       simp_all)

/-- `visit_pipe`: skip the block's first child, traverse every remaining
named sibling in order. -/
def visit_pipe (node : SNode) (source : List Char) (state : State) : Option State :=
  match h : node.children with
  | [] => some state
  | _ :: rest =>
      traverse_children (rest.filter (fun c => c.is_named)) source state
termination_by 3 * nodeSize node + 1
decreasing_by
  all_goals (apply dec_pipe; assumption)

/-- `visit_tag_interpolation`: walk to the second child and traverse that
child's named children. -/
def visit_tag_interpolation (node : SNode) (source : List Char) (state : State) : Option State :=
  match h : node.children with
  | [] =>
      traverse_children node.namedChildren source state
  | _ :: _ =>
      traverse_children
        (node.children.getD (clamp_next 0 node.children.length) default).namedChildren
        source state
termination_by 3 * nodeSize node + 1
decreasing_by
  all_goals first
    | apply dec_named1
    | (apply dec_getD
       apply clamp_next_lt
       simp_all)

end

/-! ### Basic facts about `push_range` -/

theorem push_range_none (s : State) (t : List Char) :
    push_range s t none = { s with html_text := s.html_text ++ t } := rfl

theorem push_range_some (s : State) (t : List Char) (rg : TSRange) :
    push_range s t (some rg) =
      { html_text := s.html_text ++ t
        pug_text := s.pug_text
        ranges := s.ranges ++
          [{ html_start := s.html_text.length
             html_end := s.html_text.length + t.length
             pug_start := rg.start_byte
             pug_end := rg.end_byte }] } := rfl

theorem push_range_html (s : State) (t : List Char) (r : Option TSRange) :
    (push_range s t r).html_text = s.html_text ++ t := by
  cases r <;> rfl

theorem push_range_pug (s : State) (t : List Char) (r : Option TSRange) :
    (push_range s t r).pug_text = s.pug_text := by
  cases r <;> rfl

/-! ### `Builds`: every state the transpiler produces arises from the input
state by a sequence of `push_range` appends. -/

/-- `Builds s s'` holds when `s'` is obtained from `s` by zero or more
`push_range` operations. -/
inductive Builds : State → State → Prop
  | refl (s : State) : Builds s s
  | push (s s' : State) (t : List Char) (r : Option TSRange) :
      Builds s s' → Builds s (push_range s' t r)

theorem Builds.single (s : State) (t : List Char) (r : Option TSRange) :
    Builds s (push_range s t r) :=
  Builds.push s s t r (Builds.refl s)

theorem Builds.trans {a b c : State} (h1 : Builds a b) (h2 : Builds b c) : Builds a c := by
  induction h2 with
  | refl => exact h1
  | push s' t r _ ih => exact Builds.push _ _ t r ih

theorem Builds.surround (s : State) (t : List Char) (rg : TSRange) (q : List Char) :
    Builds s (push_range_surround s t rg q) := by
  unfold push_range_surround
  exact Builds.push _ _ _ _ (Builds.push _ _ _ _ (Builds.single s q none))

/-- `Builds` only appends to the output buffer and to the range list. -/
theorem Builds.appends {s s' : State} (h : Builds s s') :
    (∃ t, s'.html_text = s.html_text ++ t) ∧ (∃ rs, s'.ranges = s.ranges ++ rs) := by
  induction h with
  | refl => exact ⟨⟨[], by simp⟩, ⟨[], by simp⟩⟩
  | push b t r _ ih =>
    obtain ⟨⟨u, hu⟩, ⟨rs, hrs⟩⟩ := ih
    refine ⟨⟨u ++ t, ?_⟩, ?_⟩
    · rw [push_range_html, hu, List.append_assoc]
    · cases r with
      | none => exact ⟨rs, hrs⟩
      | some rg =>
        refine ⟨rs ++
          [{ html_start := b.html_text.length
             html_end := b.html_text.length + t.length
             pug_start := rg.start_byte
             pug_end := rg.end_byte }], ?_⟩
        rw [push_range_some]
        simp [hrs]

theorem Builds.pug {s s' : State} (h : Builds s s') : s'.pug_text = s.pug_text := by
  induction h with
  | refl => rfl
  | push b t r _ ih => rw [push_range_pug]; exact ih

/-! ### The record-order invariant -/

/-- The invariant of the correspondence list: records are ordered by output
start, and every record starts within the current output buffer. -/
def RangesOK (s : State) : Prop :=
  List.Chain' (fun a b => a.html_start ≤ b.html_start) s.ranges ∧
  ∀ r ∈ s.ranges, r.html_start ≤ s.html_text.length

theorem rangesOK_push (s : State) (t : List Char) (r : Option TSRange)
    (h : RangesOK s) : RangesOK (push_range s t r) := by
  obtain ⟨hchain, hbound⟩ := h
  cases r with
  | none =>
    refine ⟨hchain, ?_⟩
    intro r hr
    rw [push_range_none] at hr ⊢
    simp only [List.length_append]
    exact Nat.le_trans (hbound r hr) (Nat.le_add_right _ _)
  | some rg =>
    rw [push_range_some]
    constructor
    · rw [List.chain'_append]
      refine ⟨hchain, List.chain'_singleton _, ?_⟩
      intro x hx y hy
      simp only [List.head?_cons, Option.mem_def, Option.some.injEq] at hy
      subst hy
      exact hbound x (List.mem_of_mem_getLast? hx)
    · intro r hr
      simp only [List.mem_append, List.mem_singleton] at hr
      simp only [List.length_append]
      rcases hr with hr | hr
      · exact Nat.le_trans (hbound r hr) (Nat.le_add_right _ _)
      · subst hr; simp

theorem Builds.rangesOK {s s' : State} (h : Builds s s') (h0 : RangesOK s) : RangesOK s' := by
  induction h with
  | refl => exact h0
  | push b t r _ ih => exact rangesOK_push _ _ _ ih

/-! ### One-step unfolding lemmas for the traversal functions -/

theorem tc_nil (source : List Char) (state : State) :
    traverse_children [] source state = some state := by
  rw [traverse_children.eq_def]

theorem tc_cons (n : SNode) (rest : List SNode) (source : List Char) (state : State) :
    traverse_children (n :: rest) source state =
      match traverse_tree n source state with
      | some s => traverse_children rest source s
      | none => none := by
  rw [traverse_children.eq_def]

theorem tt_unnamed {node : SNode} (source : List Char) (state : State)
    (h : node.is_named = false) :
    traverse_tree node source state = some state := by
  rw [traverse_tree.eq_def]; simp [h]

theorem tt_container {node : SNode} (source : List Char) (state : State)
    (h1 : node.is_named = true) (h2 : node.kind = "source_file" ∨ node.kind = "children") :
    traverse_tree node source state = traverse_children node.namedChildren source state := by
  rw [traverse_tree.eq_def]
  rcases h2 with h2 | h2 <;> simp [h1, h2]

theorem tt_escaped {node : SNode} (source : List Char) (state : State)
    (h1 : node.is_named = true) (h2 : node.kind = "escaped_string_interpolation") :
    traverse_tree node source state =
      match node.namedChildren.head? with
      | some interpolation_content =>
          some (push_range
            (push_range
              (push_range state "<script>return ".toList none)
              (utf8_text source interpolation_content.range) (some interpolation_content.range))
            ";</script>".toList none)
      | none => some state := by
  rw [traverse_tree.eq_def]; simp [h1, h2]

theorem tt_tag_interpolation {node : SNode} (source : List Char) (state : State)
    (h1 : node.is_named = true) (h2 : node.kind = "tag_interpolation") :
    traverse_tree node source state = visit_tag_interpolation node source state := by
  rw [traverse_tree.eq_def]; simp [h1, h2]

theorem tt_pipe {node : SNode} (source : List Char) (state : State)
    (h1 : node.is_named = true) (h2 : node.kind = "pipe") :
    traverse_tree node source state = visit_pipe node source state := by
  rw [traverse_tree.eq_def]; simp [h1, h2]

theorem tt_conditional {node : SNode} (source : List Char) (state : State)
    (h1 : node.is_named = true) (h2 : node.kind = "conditional") :
    traverse_tree node source state = visit_conditional node source state := by
  rw [traverse_tree.eq_def]; simp [h1, h2]

theorem tt_tag {node : SNode} (source : List Char) (state : State)
    (h1 : node.is_named = true) (h2 : node.kind = "tag") :
    traverse_tree node source state = visit_tag node source state := by
  rw [traverse_tree.eq_def]; simp [h1, h2]

theorem tt_attributes {node : SNode} (source : List Char) (state : State)
    (h1 : node.is_named = true) (h2 : node.kind = "attributes") :
    traverse_tree node source state = visit_attributes node source state := by
  rw [traverse_tree.eq_def]; simp [h1, h2]

theorem tt_content {node : SNode} (source : List Char) (state : State)
    (h1 : node.is_named = true) (h2 : node.kind = "content") :
    traverse_tree node source state =
      match traverse_children node.namedChildren source state with
      | some s => some (push_range s (utf8_text source node.range) (some node.range))
      | none => none := by
  rw [traverse_tree.eq_def]; simp [h1, h2]

theorem tt_inert {node : SNode} (source : List Char) (state : State)
    (h1 : node.is_named = true)
    (h2 : node.kind = "keyword" ∨ node.kind = "mixin_attributes" ∨ node.kind = "comment") :
    traverse_tree node source state = some state := by
  rw [traverse_tree.eq_def]
  rcases h2 with h2 | h2 | h2 <;> simp [h1, h2]

theorem tt_unknown {node : SNode} (source : List Char) (state : State)
    (h1 : node.is_named = true)
    (h2 : node.kind ∉ (["source_file", "children", "escaped_string_interpolation",
      "tag_interpolation", "pipe", "conditional", "tag", "attributes", "content",
      "keyword", "mixin_attributes", "comment"] : List String)) :
    traverse_tree node source state = some state := by
  rw [traverse_tree.eq_def]
  simp only [List.mem_cons, List.mem_singleton, not_or] at h2
  simp only [h1, if_pos rfl, if_true]
  split <;> simp_all

theorem tt_escaped_some {node ic : SNode} (source : List Char) (state : State)
    (h1 : node.is_named = true) (h2 : node.kind = "escaped_string_interpolation")
    (hic : node.namedChildren.head? = some ic) :
    traverse_tree node source state =
      some (push_range
        (push_range (push_range state "<script>return ".toList none)
          (utf8_text source ic.range) (some ic.range))
        ";</script>".toList none) := by
  rw [tt_escaped source state h1 h2, hic]

theorem tt_escaped_none {node : SNode} (source : List Char) (state : State)
    (h1 : node.is_named = true) (h2 : node.kind = "escaped_string_interpolation")
    (hic : node.namedChildren.head? = none) :
    traverse_tree node source state = some state := by
  rw [tt_escaped source state h1 h2, hic]

theorem vt_nil {node : SNode} (source : List Char) (state : State)
    (h : node.namedChildren = []) :
    visit_tag node source state = none := by
  unfold visit_tag
  split
  · rfl
  · simp_all

theorem vt_cons {node name_node : SNode} {rest : List SNode} (source : List Char) (state : State)
    (h : node.namedChildren = name_node :: rest) :
    visit_tag node source state =
      (match visit_tag_loop (utf8_text source name_node.range) rest source
          (push_range (push_range state "<".toList none)
            (utf8_text source name_node.range) (some name_node.range)) false with
       | none => none
       | some (state, has_closed_open_tag) =>
         let state := if has_closed_open_tag then state else push_range state ">".toList none
         let state :=
           if is_void_element (utf8_text source name_node.range) then state
           else push_range state
             ("</".toList ++ utf8_text source name_node.range ++ ">".toList) none
         some state) := by
  unfold visit_tag
  split
  · simp_all
  · rename_i nn rr heq
    rw [h] at heq
    injection heq with e1 e2
    subst e1; subst e2
    rfl

theorem vtl_nil (name : List Char) (source : List Char) (state : State) (b : Bool) :
    visit_tag_loop name [] source state b = some (state, b) := by
  rw [visit_tag_loop.eq_def]

theorem vtl_attrs {child : SNode} (name : List Char) (rest : List SNode)
    (source : List Char) (state : State) (b : Bool)
    (h : child.kind = "attributes") :
    visit_tag_loop name (child :: rest) source state b =
      match traverse_tree child source (push_range state " ".toList none) with
      | some s => visit_tag_loop name rest source s b
      | none => none := by
  rw [visit_tag_loop.eq_def]; simp [h]

theorem vtl_void {child : SNode} (name : List Char) (rest : List SNode)
    (source : List Char) (state : State) (b : Bool)
    (h1 : ¬child.kind = "attributes") (h2 : is_void_element name = true) :
    visit_tag_loop name (child :: rest) source state b =
      some (push_range state "/>".toList none, b) := by
  rw [visit_tag_loop.eq_def]; simp [h1, h2]

theorem vtl_content {child : SNode} (name : List Char) (rest : List SNode)
    (source : List Char) (state : State) (b : Bool)
    (h1 : ¬child.kind = "attributes") (h2 : is_void_element name = false)
    (h3 : child.kind = "content") :
    visit_tag_loop name (child :: rest) source state b =
      match traverse_tree child source (if b then state else push_range state ">".toList none) with
      | some s => visit_tag_loop name rest source s true
      | none => none := by
  rw [visit_tag_loop.eq_def]
  simp only [if_neg h1, h2, Bool.false_eq_true, if_false, if_pos h3]

theorem vtl_children {child : SNode} (name : List Char) (rest : List SNode)
    (source : List Char) (state : State) (b : Bool)
    (h1 : ¬child.kind = "attributes") (h2 : is_void_element name = false)
    (h3 : ¬child.kind = "content") (h4 : child.kind = "children") :
    visit_tag_loop name (child :: rest) source state b =
      match traverse_tree child source (if b then state else push_range state ">".toList none) with
      | some s => visit_tag_loop name rest source s true
      | none => none := by
  rw [visit_tag_loop.eq_def]
  simp only [if_neg h1, h2, Bool.false_eq_true, if_false, if_neg h3, if_pos h4]

theorem vtl_other {child : SNode} (name : List Char) (rest : List SNode)
    (source : List Char) (state : State) (b : Bool)
    (h1 : ¬child.kind = "attributes") (h2 : is_void_element name = false)
    (h3 : ¬child.kind = "content") (h4 : ¬child.kind = "children") :
    visit_tag_loop name (child :: rest) source state b =
      visit_tag_loop name rest source
        (if b then state else push_range state ">".toList none) true := by
  rw [visit_tag_loop.eq_def]
  simp only [if_neg h1, h2, Bool.false_eq_true, if_false, if_neg h3, if_neg h4]

theorem vc_nil {node : SNode} (source : List Char) (state : State)
    (h : node.children = []) :
    visit_conditional node source state =
      traverse_children node.namedChildren source state := by
  rw [visit_conditional.eq_def]
  split
  · rfl
  · simp_all

theorem vc_js {node c : SNode} {rest : List SNode} (source : List Char) (state : State)
    (h : node.children = c :: rest)
    (hjs : (node.children.getD (clamp_next 0 node.children.length) default).kind =
      "javascript") :
    visit_conditional node source state =
      traverse_children
        (node.children.getD
          (clamp_next (clamp_next (clamp_next 0 node.children.length) node.children.length)
            node.children.length) default).namedChildren
        source
        (push_range
          (push_range (push_range state "<script>return ".toList none)
            (utf8_text source
              (node.children.getD (clamp_next 0 node.children.length) default).range)
            (some (node.children.getD (clamp_next 0 node.children.length) default).range))
          ";</script>".toList none) := by
  rw [visit_conditional.eq_def]
  split
  · simp_all
  · rw [if_pos hjs]

theorem vc_nojs {node c : SNode} {rest : List SNode} (source : List Char) (state : State)
    (h : node.children = c :: rest)
    (hjs : ¬(node.children.getD (clamp_next 0 node.children.length) default).kind =
      "javascript") :
    visit_conditional node source state =
      traverse_children
        (node.children.getD
          (clamp_next (clamp_next 0 node.children.length) node.children.length)
          default).namedChildren source state := by
  rw [visit_conditional.eq_def]
  split
  · simp_all
  · rw [if_neg hjs]

theorem vp_nil {node : SNode} (source : List Char) (state : State)
    (h : node.children = []) :
    visit_pipe node source state = some state := by
  rw [visit_pipe.eq_def]
  split
  · rfl
  · simp_all

theorem vp_cons {node c : SNode} {rest : List SNode} (source : List Char) (state : State)
    (h : node.children = c :: rest) :
    visit_pipe node source state =
      traverse_children (rest.filter (fun x => x.is_named)) source state := by
  rw [visit_pipe.eq_def]
  split
  · simp_all
  · rename_i cc rr heq
    rw [h] at heq
    injection heq with e1 e2
    subst e1; subst e2
    rfl

theorem vti_nil {node : SNode} (source : List Char) (state : State)
    (h : node.children = []) :
    visit_tag_interpolation node source state =
      traverse_children node.namedChildren source state := by
  rw [visit_tag_interpolation.eq_def]
  split
  · rfl
  · simp_all

theorem vti_cons {node c : SNode} {rest : List SNode} (source : List Char) (state : State)
    (h : node.children = c :: rest) :
    visit_tag_interpolation node source state =
      traverse_children
        (node.children.getD (clamp_next 0 node.children.length) default).namedChildren
        source state := by
  rw [visit_tag_interpolation.eq_def]
  split
  · simp_all
  · rfl

/-! ### `Builds` for the attribute renderer (non-recursive) -/

theorem visit_attribute_builds {a : SNode} {source : List Char} {s s' : State}
    (h : visit_attribute a source s = some s') : Builds s s' := by
  unfold visit_attribute at h
  split at h
  · cases h
  · split at h
    · split at h
      all_goals (injection h with h; subst h)
      · simp only [push_range_surround]
        repeat apply Builds.push
        exact Builds.refl _
      · repeat apply Builds.push
        exact Builds.refl _
      · repeat apply Builds.push
        exact Builds.refl _
    · injection h with h; subst h
      simp only [push_range_surround]
      repeat apply Builds.push
      exact Builds.refl _

theorem visit_attributes_list_builds {source : List Char} :
    ∀ (attrs : List SNode) (first : Bool) (s s' : State),
      visit_attributes_list attrs first source s = some s' → Builds s s' := by
  intro attrs
  induction attrs with
  | nil =>
    intro first s s' h
    unfold visit_attributes_list at h
    injection h with h; subst h
    exact Builds.refl _
  | cons a rest ih =>
    intro first s s' h
    unfold visit_attributes_list at h
    simp only [] at h
    have hb0 : Builds s (if first = true then s else push_range s ", ".toList none) := by
      split
      · exact Builds.refl _
      · exact Builds.single _ _ _
    cases hv : visit_attribute a source
        (if first = true then s else push_range s ", ".toList none) with
    | none => rw [hv] at h; cases h
    | some s1 =>
      rw [hv] at h
      exact (hb0.trans (visit_attribute_builds hv)).trans (ih false s1 s' h)

theorem visit_attributes_builds {node : SNode} {source : List Char} {s s' : State}
    (h : visit_attributes node source s = some s') : Builds s s' := by
  unfold visit_attributes at h
  exact visit_attributes_list_builds _ _ _ _ h

/-! ### The master lemma: every successful traversal builds its result from
the input state by `push_range` steps alone. -/

theorem traverse_master :
    ∀ (node : SNode) (source : List Char) (state : State),
      ∀ s', traverse_tree node source state = some s' → Builds state s' := by
  apply traverse_tree.induct
    (fun node source state =>
      ∀ s', traverse_tree node source state = some s' → Builds state s')
    (fun node source state =>
      ∀ s', visit_tag node source state = some s' → Builds state s')
    (fun name childs source state b =>
      ∀ s' b', visit_tag_loop name childs source state b = some (s', b') → Builds state s')
    (fun node source state =>
      ∀ s', visit_conditional node source state = some s' → Builds state s')
    (fun nodes source state =>
      ∀ s', traverse_children nodes source state = some s' → Builds state s')
    (fun node source state =>
      ∀ s', visit_pipe node source state = some s' → Builds state s')
    (fun node source state =>
      ∀ s', visit_tag_interpolation node source state = some s' → Builds state s')
  -- 1: source_file
  · intro node source state h1 h2 ih s' hh
    rw [tt_container source state h1 (Or.inl h2)] at hh
    exact ih s' hh
  -- 2: children
  · intro node source state h1 h2 ih s' hh
    rw [tt_container source state h1 (Or.inr h2)] at hh
    exact ih s' hh
  -- 3: escaped_string_interpolation, head? = some
  · intro node source state h1 h2 ic hic s' hh
    rw [tt_escaped_some source state h1 h2 hic] at hh
    injection hh with hh
    subst hh
    repeat apply Builds.push
    exact Builds.refl _
  -- 4: escaped_string_interpolation, head? = none
  · intro node source state h1 h2 hic s' hh
    rw [tt_escaped_none source state h1 h2 hic] at hh
    injection hh with hh
    subst hh
    exact Builds.refl _
  -- 5: tag_interpolation
  · intro node source state h1 h2 ih s' hh
    rw [tt_tag_interpolation source state h1 h2] at hh
    exact ih s' hh
  -- 6: pipe
  · intro node source state h1 h2 ih s' hh
    rw [tt_pipe source state h1 h2] at hh
    exact ih s' hh
  -- 7: conditional
  · intro node source state h1 h2 ih s' hh
    rw [tt_conditional source state h1 h2] at hh
    exact ih s' hh
  -- 8: tag
  · intro node source state h1 h2 ih s' hh
    rw [tt_tag source state h1 h2] at hh
    exact ih s' hh
  -- 9: attributes
  · intro node source state h1 h2 s' hh
    rw [tt_attributes source state h1 h2] at hh
    exact visit_attributes_builds hh
  -- 10: content, children traversal succeeds
  · intro node source state h1 h2 s hs ih s' hh
    rw [tt_content source state h1 h2, hs] at hh
    simp only [Option.some.injEq] at hh
    subst hh
    exact Builds.push _ _ _ _ (ih s hs)
  -- 11: content, children traversal fails
  · intro node source state h1 h2 hs ih s' hh
    rw [tt_content source state h1 h2, hs] at hh
    cases hh
  -- 12: keyword
  · intro node source state h1 h2 s' hh
    rw [tt_inert source state h1 (Or.inl h2)] at hh
    injection hh with hh
    subst hh
    exact Builds.refl _
  -- 13: mixin_attributes
  · intro node source state h1 h2 s' hh
    rw [tt_inert source state h1 (Or.inr (Or.inl h2))] at hh
    injection hh with hh
    subst hh
    exact Builds.refl _
  -- 14: comment
  · intro node source state h1 h2 s' hh
    rw [tt_inert source state h1 (Or.inr (Or.inr h2))] at hh
    injection hh with hh
    subst hh
    exact Builds.refl _
  -- 15: unrecognized kind
  · intro node source state h1 k1 k2 k3 k4 k5 k6 k7 k8 k9 k10 k11 k12 s' hh
    rw [tt_unknown source state h1 ?notin] at hh
    case notin =>
      intro hmem
      simp only [List.mem_cons, List.not_mem_nil, or_false] at hmem
      rcases hmem with e | e | e | e | e | e | e | e | e | e | e | e
      · exact k1 e
      · exact k2 e
      · exact k3 e
      · exact k4 e
      · exact k5 e
      · exact k6 e
      · exact k7 e
      · exact k8 e
      · exact k9 e
      · exact k10 e
      · exact k11 e
      · exact k12 e
    injection hh with hh
    subst hh
    exact Builds.refl _
  -- 16: unnamed node
  · intro node source state h1 s' hh
    rw [tt_unnamed source state (by simpa using h1)] at hh
    injection hh with hh
    subst hh
    exact Builds.refl _
  -- 17: visit_tag, no name child
  · intro node source state heq s' hh
    rw [vt_nil source state heq] at hh
    cases hh
  -- 18: visit_tag, loop fails
  · intro node source state nn rest heq
    simp only []
    intro hloop ihl s' hh
    rw [vt_cons source state heq, hloop] at hh
    cases hh
  -- 19: visit_tag, loop succeeds
  · intro node source state nn rest heq
    simp only []
    intro state_3 hc hloop ihl s' hh
    rw [vt_cons source state heq, hloop] at hh
    simp only [Option.some.injEq] at hh
    subst hh
    have bmid : Builds state state_3 := by
      refine Builds.trans ?b1 (ihl state_3 hc hloop)
      repeat apply Builds.push
      exact Builds.refl _
    split
    · split
      · exact bmid
      · exact Builds.push _ _ _ _ bmid
    · apply Builds.push
      split
      · exact bmid
      · exact Builds.push _ _ _ _ bmid
  -- 20: loop, empty list
  · intro name source state hc s' b' hh
    rw [vtl_nil] at hh
    injection hh with hh
    injection hh with hh1 hh2
    subst hh1
    exact Builds.refl _
  -- 21: loop, attributes child, traversal succeeds
  · intro name source state hc child rest hkind
    simp only []
    intro s htt ih1 ih3 s' b' hh
    rw [vtl_attrs name rest source state hc hkind, htt] at hh
    simp only [] at hh
    exact ((Builds.single state " ".toList none).trans (ih1 s htt)).trans (ih3 s' b' hh)
  -- 22: loop, attributes child, traversal fails
  · intro name source state hc child rest hkind
    simp only []
    intro htt ih1 s' b' hh
    rw [vtl_attrs name rest source state hc hkind, htt] at hh
    cases hh
  -- 23: loop, void break
  · intro name source state hc child rest hkind hvoid s' b' hh
    rw [vtl_void name rest source state hc hkind hvoid] at hh
    injection hh with hh
    injection hh with hh1 hh2
    subst hh1
    exact Builds.single _ _ _
  -- 24: loop, content child, traversal succeeds
  · intro name source state hc child rest hkind hvoid
    simp only []
    intro hcont s htt ih1 ih3 s' b' hh
    simp only [dite_eq_ite] at htt ih1
    rw [vtl_content name rest source state hc hkind (by simpa using hvoid) hcont, htt] at hh
    simp only [] at hh
    have b0 : Builds state (if hc = true then state else push_range state ">".toList none) := by
      split
      · exact Builds.refl _
      · exact Builds.single _ _ _
    exact (b0.trans (ih1 s htt)).trans (ih3 s' b' hh)
  -- 25: loop, content child, traversal fails
  · intro name source state hc child rest hkind hvoid
    simp only []
    intro hcont htt ih1 s' b' hh
    simp only [dite_eq_ite] at htt ih1
    rw [vtl_content name rest source state hc hkind (by simpa using hvoid) hcont, htt] at hh
    cases hh
  -- 26: loop, children child, traversal succeeds
  · intro name source state hc child rest hkind hvoid
    simp only []
    intro hcont hchild s htt ih1 ih3 s' b' hh
    simp only [dite_eq_ite] at htt ih1
    rw [vtl_children name rest source state hc hkind (by simpa using hvoid) hcont hchild,
      htt] at hh
    simp only [] at hh
    have b0 : Builds state (if hc = true then state else push_range state ">".toList none) := by
      split
      · exact Builds.refl _
      · exact Builds.single _ _ _
    exact (b0.trans (ih1 s htt)).trans (ih3 s' b' hh)
  -- 27: loop, children child, traversal fails
  · intro name source state hc child rest hkind hvoid
    simp only []
    intro hcont hchild htt ih1 s' b' hh
    simp only [dite_eq_ite] at htt ih1
    rw [vtl_children name rest source state hc hkind (by simpa using hvoid) hcont hchild,
      htt] at hh
    cases hh
  -- 28: loop, other child
  · intro name source state hc child rest hkind hvoid
    simp only []
    intro hcont hchild ih3 s' b' hh
    simp only [dite_eq_ite] at ih3
    rw [vtl_other name rest source state hc hkind (by simpa using hvoid) hcont hchild] at hh
    have b0 : Builds state (if hc = true then state else push_range state ">".toList none) := by
      split
      · exact Builds.refl _
      · exact Builds.single _ _ _
    exact b0.trans (ih3 s' b' hh)
  -- 29: conditional, no children
  · intro node source state heq ih s' hh
    rw [vc_nil source state heq] at hh
    exact ih s' hh
  -- 30: conditional with javascript condition
  · intro node source state nn rest heq
    simp only []
    intro hjs ih s' hh
    rw [vc_js source state heq hjs] at hh
    refine Builds.trans ?b2 (ih s' hh)
    repeat apply Builds.push
    exact Builds.refl _
  -- 31: conditional without javascript condition
  · intro node source state nn rest heq
    simp only []
    intro hjs ih s' hh
    rw [vc_nojs source state heq hjs] at hh
    exact ih s' hh
  -- 32: traverse_children, empty
  · intro source state s' hh
    rw [tc_nil] at hh
    injection hh with hh
    subst hh
    exact Builds.refl _
  -- 33: traverse_children, head succeeds
  · intro source state n rest s htt ih1 ih5 s' hh
    rw [tc_cons, htt] at hh
    simp only [] at hh
    exact (ih1 s htt).trans (ih5 s' hh)
  -- 34: traverse_children, head fails
  · intro source state n rest htt ih1 s' hh
    rw [tc_cons, htt] at hh
    cases hh
  -- 35: pipe, no children
  · intro node source state heq s' hh
    rw [vp_nil source state heq] at hh
    injection hh with hh
    subst hh
    exact Builds.refl _
  -- 36: pipe, with children
  · intro node source state nn rest heq ih s' hh
    rw [vp_cons source state heq] at hh
    exact ih s' hh
  -- 37: tag_interpolation, no children
  · intro node source state heq ih s' hh
    rw [vti_nil source state heq] at hh
    exact ih s' hh
  -- 38: tag_interpolation, with children
  · intro node source state nn rest heq ih s' hh
    rw [vti_cons source state heq] at hh
    exact ih s' hh

/-- `Builds` for any successful `traverse_tree` run. -/
theorem traverse_tree_builds {node : SNode} {source : List Char} {state s' : State}
    (h : traverse_tree node source state = some s') : Builds state s' :=
  traverse_master node source state s' h

/-- `Builds` for any successful `traverse_children` run. -/
theorem traverse_children_builds {source : List Char} :
    ∀ {nodes : List SNode} {state s' : State},
      traverse_children nodes source state = some s' → Builds state s' := by
  intro nodes
  induction nodes with
  | nil =>
    intro state s' h
    rw [tc_nil] at h
    injection h with h
    subst h
    exact Builds.refl _
  | cons n rest ih =>
    intro state s' h
    rw [tc_cons] at h
    cases htt : traverse_tree n source state with
    | none => rw [htt] at h; cases h
    | some s =>
      rw [htt] at h
      simp only [] at h
      exact (traverse_tree_builds htt).trans (ih h)

/-! ### Shape lemmas for the `visit_tag` loop -/

/-- Once the open tag has been closed (`has_closed = true`), the loop keeps
the flag set and only appends further text. -/
theorem loop_mono_true (name source : List Char) :
    ∀ (cs : List SNode) (s s' : State) (b' : Bool),
      visit_tag_loop name cs source s true = some (s', b') →
      b' = true ∧ ∃ u, s'.html_text = s.html_text ++ u := by
  intro cs
  induction cs with
  | nil =>
    intro s s' b' h
    rw [vtl_nil] at h
    injection h with h
    injection h with h1 h2
    subst h1; subst h2
    exact ⟨rfl, [], by simp⟩
  | cons child rest ih =>
    intro s s' b' h
    by_cases hk : child.kind = "attributes"
    · rw [vtl_attrs name rest source s true hk] at h
      cases htt : traverse_tree child source (push_range s " ".toList none) with
      | none => rw [htt] at h; cases h
      | some s1 =>
        rw [htt] at h
        simp only [] at h
        obtain ⟨hb, u2, hu2⟩ := ih s1 s' b' h
        obtain ⟨⟨u1, hu1⟩, -⟩ := (traverse_tree_builds htt).appends
        refine ⟨hb, " ".toList ++ u1 ++ u2, ?_⟩
        rw [hu2, hu1, push_range_html]
        simp [List.append_assoc]
    · by_cases hv : is_void_element name = true
      · rw [vtl_void name rest source s true hk hv] at h
        injection h with h
        injection h with h1 h2
        subst h1; subst h2
        exact ⟨rfl, "/>".toList, by rw [push_range_html]⟩
      · by_cases hcont : child.kind = "content"
        · rw [vtl_content name rest source s true hk (by simpa using hv) hcont] at h
          simp only [if_true] at h
          cases htt : traverse_tree child source s with
          | none => rw [htt] at h; cases h
          | some s1 =>
            rw [htt] at h
            simp only [] at h
            obtain ⟨hb, u2, hu2⟩ := ih s1 s' b' h
            obtain ⟨⟨u1, hu1⟩, -⟩ := (traverse_tree_builds htt).appends
            exact ⟨hb, u1 ++ u2, by rw [hu2, hu1, List.append_assoc]⟩
        · by_cases hch : child.kind = "children"
          · rw [vtl_children name rest source s true hk (by simpa using hv) hcont hch] at h
            simp only [if_true] at h
            cases htt : traverse_tree child source s with
            | none => rw [htt] at h; cases h
            | some s1 =>
              rw [htt] at h
              simp only [] at h
              obtain ⟨hb, u2, hu2⟩ := ih s1 s' b' h
              obtain ⟨⟨u1, hu1⟩, -⟩ := (traverse_tree_builds htt).appends
              exact ⟨hb, u1 ++ u2, by rw [hu2, hu1, List.append_assoc]⟩
          · rw [vtl_other name rest source s true hk (by simpa using hv) hcont hch] at h
            simp only [if_true] at h
            exact ih s s' b' h

/-- A run of the loop over attribute children only: the flag is unchanged and
the loop only appends the attribute renderings. -/
theorem loop_all_attrs (name source : List Char) :
    ∀ (cs : List SNode) (s s' : State) (b b' : Bool),
      (∀ c ∈ cs, c.kind = "attributes") →
      visit_tag_loop name cs source s b = some (s', b') →
      b' = b ∧ ∃ t, s'.html_text = s.html_text ++ t := by
  intro cs
  induction cs with
  | nil =>
    intro s s' b b' _ h
    rw [vtl_nil] at h
    injection h with h
    injection h with h1 h2
    subst h1; subst h2
    exact ⟨rfl, [], by simp⟩
  | cons child rest ih =>
    intro s s' b b' hall h
    have hk : child.kind = "attributes" := hall child (List.mem_cons_self child rest)
    rw [vtl_attrs name rest source s b hk] at h
    cases htt : traverse_tree child source (push_range s " ".toList none) with
    | none => rw [htt] at h; cases h
    | some s1 =>
      rw [htt] at h
      simp only [] at h
      obtain ⟨hb, t2, ht2⟩ := ih s1 s' b b' (fun c hc => hall c (List.mem_cons_of_mem _ hc)) h
      obtain ⟨⟨t1, ht1⟩, -⟩ := (traverse_tree_builds htt).appends
      refine ⟨hb, " ".toList ++ t1 ++ t2, ?_⟩
      rw [ht2, ht1, push_range_html]
      simp [List.append_assoc]

/-- For a void tag name, the first non-attribute child makes the loop push
`/>` and stop, leaving the flag as it was. -/
theorem loop_void_break (name source : List Char) (hv : is_void_element name = true) :
    ∀ (P : List SNode) (c : SNode) (rest : List SNode) (s s' : State) (b b' : Bool),
      (∀ x ∈ P, x.kind = "attributes") →
      ¬c.kind = "attributes" →
      visit_tag_loop name (P ++ c :: rest) source s b = some (s', b') →
      b' = b ∧ ∃ t, s'.html_text = s.html_text ++ t ++ "/>".toList := by
  intro P
  induction P with
  | nil =>
    intro c rest s s' b b' _ hc h
    rw [List.nil_append] at h
    rw [vtl_void name rest source s b hc hv] at h
    injection h with h
    injection h with h1 h2
    subst h1; subst h2
    exact ⟨rfl, [], by rw [push_range_html]; simp⟩
  | cons a P' ih =>
    intro c rest s s' b b' hall hc h
    have hk : a.kind = "attributes" := hall a (List.mem_cons_self a P')
    rw [List.cons_append] at h
    rw [vtl_attrs name (P' ++ c :: rest) source s b hk] at h
    cases htt : traverse_tree a source (push_range s " ".toList none) with
    | none => rw [htt] at h; cases h
    | some s1 =>
      rw [htt] at h
      simp only [] at h
      obtain ⟨hb, t2, ht2⟩ :=
        ih c rest s1 s' b b' (fun x hx => hall x (List.mem_cons_of_mem _ hx)) hc h
      obtain ⟨⟨t1, ht1⟩, -⟩ := (traverse_tree_builds htt).appends
      refine ⟨hb, " ".toList ++ t1 ++ t2, ?_⟩
      rw [ht2, ht1, push_range_html]
      simp [List.append_assoc]

/-- For a non-void tag name with the flag still unset, the first non-attribute
child closes the open tag with `>`; the run ends with the flag set. -/
theorem loop_nonvoid_first (name source : List Char) (hv : is_void_element name = false) :
    ∀ (P : List SNode) (c : SNode) (rest : List SNode) (s s' : State) (b' : Bool),
      (∀ x ∈ P, x.kind = "attributes") →
      ¬c.kind = "attributes" →
      visit_tag_loop name (P ++ c :: rest) source s false = some (s', b') →
      b' = true ∧ ∃ t u, s'.html_text = s.html_text ++ t ++ ">".toList ++ u := by
  intro P
  induction P with
  | nil =>
    intro c rest s s' b' _ hc h
    rw [List.nil_append] at h
    by_cases hcont : c.kind = "content"
    · rw [vtl_content name rest source s false hc hv hcont] at h
      simp only [Bool.false_eq_true, if_false] at h
      cases htt : traverse_tree c source (push_range s ">".toList none) with
      | none => rw [htt] at h; cases h
      | some s1 =>
        rw [htt] at h
        simp only [] at h
        obtain ⟨hb, u2, hu2⟩ := loop_mono_true name source rest s1 s' b' h
        obtain ⟨⟨u1, hu1⟩, -⟩ := (traverse_tree_builds htt).appends
        refine ⟨hb, [], u1 ++ u2, ?_⟩
        rw [hu2, hu1, push_range_html]
        simp [List.append_assoc]
    · by_cases hch : c.kind = "children"
      · rw [vtl_children name rest source s false hc hv hcont hch] at h
        simp only [Bool.false_eq_true, if_false] at h
        cases htt : traverse_tree c source (push_range s ">".toList none) with
        | none => rw [htt] at h; cases h
        | some s1 =>
          rw [htt] at h
          simp only [] at h
          obtain ⟨hb, u2, hu2⟩ := loop_mono_true name source rest s1 s' b' h
          obtain ⟨⟨u1, hu1⟩, -⟩ := (traverse_tree_builds htt).appends
          refine ⟨hb, [], u1 ++ u2, ?_⟩
          rw [hu2, hu1, push_range_html]
          simp [List.append_assoc]
      · rw [vtl_other name rest source s false hc hv hcont hch] at h
        simp only [Bool.false_eq_true, if_false] at h
        obtain ⟨hb, u2, hu2⟩ := loop_mono_true name source rest (push_range s ">".toList none) s' b' h
        refine ⟨hb, [], u2, ?_⟩
        rw [hu2, push_range_html]
        simp [List.append_assoc]
  | cons a P' ih =>
    intro c rest s s' b' hall hc h
    have hk : a.kind = "attributes" := hall a (List.mem_cons_self a P')
    rw [List.cons_append] at h
    rw [vtl_attrs name (P' ++ c :: rest) source s false hk] at h
    cases htt : traverse_tree a source (push_range s " ".toList none) with
    | none => rw [htt] at h; cases h
    | some s1 =>
      rw [htt] at h
      simp only [] at h
      obtain ⟨hb, t2, u2, hu2⟩ :=
        ih c rest s1 s' b' (fun x hx => hall x (List.mem_cons_of_mem _ hx)) hc h
      obtain ⟨⟨t1, ht1⟩, -⟩ := (traverse_tree_builds htt).appends
      refine ⟨hb, " ".toList ++ t1 ++ t2, u2, ?_⟩
      rw [hu2, ht1, push_range_html]
      simp [List.append_assoc]

/-- Split a list at its first element violating `kind = "attributes"`. -/
theorem first_split :
    ∀ (l : List SNode), ¬(∀ c ∈ l, c.kind = "attributes") →
      ∃ P c rest, l = P ++ c :: rest ∧ (∀ x ∈ P, x.kind = "attributes") ∧
        ¬c.kind = "attributes" := by
  intro l
  induction l with
  | nil => intro h; exact absurd (by intro c hc; cases hc) h
  | cons a rest ih =>
    intro h
    by_cases ha : a.kind = "attributes"
    · have hrest : ¬(∀ c ∈ rest, c.kind = "attributes") := by
        intro hr
        exact h (by
          intro c hc
          rcases List.mem_cons.mp hc with rfl | hc
          · exact ha
          · exact hr c hc)
      obtain ⟨P, c, rest', heq, hP, hc⟩ := ih hrest
      exact ⟨a :: P, c, rest', by rw [heq, List.cons_append], by
        intro x hx
        rcases List.mem_cons.mp hx with rfl | hx
        · exact ha
        · exact hP x hx, hc⟩
    · exact ⟨[], a, rest, by simp, (by intro x hx; cases hx), ha⟩

/-! ### Concrete example trees used by witnesses and counterexamples -/

/-- Source `foo` for an attributes block with one boolean attribute. -/
def exA_src : List Char := "foo".toList

def exA_name : SNode := SNode.mk "attribute_name" true ⟨0, 3⟩ []

def exA_attr : SNode := SNode.mk "attribute" true ⟨0, 3⟩ [exA_name]

def exA_attrs : SNode := SNode.mk "attributes" true ⟨0, 3⟩ [exA_attr]

/-- The state produced by transpiling `exA_attrs`: output `foo='foo'` with a
record for the name and a record for the synthesized value. -/
def exA_result : State :=
  { html_text := "foo=".toList ++ squote ++ "foo".toList ++ squote
    pug_text := exA_src
    ranges := [⟨3, 0, 3, 0⟩, ⟨8, 5, 3, 0⟩] }

/-- Source `br hi` for a void tag with a content child. -/
def exB_src : List Char := "br hi".toList

def exB_name : SNode := SNode.mk "tag_name" true ⟨0, 2⟩ []

def exB_content : SNode := SNode.mk "content" true ⟨3, 5⟩ []

def exB_tag : SNode := SNode.mk "tag" true ⟨0, 5⟩ [exB_name, exB_content]

/-- Source `br` for a void tag with no child beyond the name. -/
def exC_src : List Char := "br".toList

def exC_name : SNode := SNode.mk "tag_name" true ⟨0, 2⟩ []

def exC_tag : SNode := SNode.mk "tag" true ⟨0, 2⟩ [exC_name]

/-- Source `p` for a plain non-void tag. -/
def exD_src : List Char := "p".toList

def exD_name : SNode := SNode.mk "tag_name" true ⟨0, 1⟩ []

def exD_tag : SNode := SNode.mk "tag" true ⟨0, 1⟩ [exD_name]

/-- Source `ab #{x}` for a content node with one nested interpolation. -/
def exE_src : List Char := "ab #{x}".toList

def exE_expr : SNode := SNode.mk "interpolation_content" true ⟨5, 6⟩ []

def exE_interp : SNode := SNode.mk "escaped_string_interpolation" true ⟨3, 7⟩
  [SNode.mk "#\x7b" false ⟨3, 5⟩ [], exE_expr, SNode.mk "\x7d" false ⟨6, 7⟩ []]

def exE_content : SNode := SNode.mk "content" true ⟨0, 7⟩ [exE_interp]

/-- Source `if x > 1:p` for a conditional with a javascript condition. -/
def exF_src : List Char := "if x > 1:p".toList

def exF_kw : SNode := SNode.mk "keyword" true ⟨0, 2⟩ []

def exF_js : SNode := SNode.mk "javascript" true ⟨3, 8⟩ []

def exF_colon : SNode := SNode.mk ":" false ⟨8, 9⟩ []

def exF_body : SNode := SNode.mk "children" true ⟨9, 10⟩ []

def exF_cond : SNode := SNode.mk "conditional" true ⟨0, 10⟩
  [exF_kw, exF_js, exF_colon, exF_body]

/-- Source `#[a]` for a tag interpolation whose second child is a comment. -/
def exG_src : List Char := "#[a]".toList

def exG_delim : SNode := SNode.mk "#[" false ⟨0, 2⟩ []

def exG_comment : SNode := SNode.mk "comment" true ⟨2, 3⟩ []

def exG_tin : SNode := SNode.mk "tag_interpolation" true ⟨0, 4⟩ [exG_delim, exG_comment]

/-- Source `a=b` for an attribute whose value kind is unrecognized. -/
def exH_src : List Char := "a=b".toList

def exH_name : SNode := SNode.mk "attribute_name" true ⟨0, 1⟩ []

def exH_value : SNode := SNode.mk "other_value" true ⟨2, 3⟩ []

def exH_attr : SNode := SNode.mk "attribute" true ⟨0, 3⟩ [exH_name, exH_value]

/-! ### Claim C5 -/

/-- Claim C5, counterexample: the classifier does not lowercase.  `BR`
lowercases to the void name `br`, yet `is_void_element` rejects `BR` while
accepting `br`, so classification is not a function of the lowercase form. -/
theorem c5_counterexample :
    is_void_element "BR".toList = false ∧
    "BR".toList.map Char.toLower = "br".toList ∧
    is_void_element "br".toList = true := by
  refine ⟨rfl, by decide, rfl⟩

/-- Claim C5 (amended): void-element classification is exact (case-sensitive)
membership of the tag name in the fourteen-element void set; names differing
only in case can classify differently. -/
theorem c5_void_exact :
    ∀ s : List Char, is_void_element s = true ↔
      (s = "area".toList ∨ s = "base".toList ∨ s = "br".toList ∨ s = "col".toList ∨
       s = "embed".toList ∨ s = "hr".toList ∨ s = "img".toList ∨ s = "input".toList ∨
       s = "link".toList ∨ s = "meta".toList ∨ s = "param".toList ∨ s = "source".toList ∨
       s = "track".toList ∨ s = "wbr".toList) := by
  intro s
  simp only [is_void_element, Bool.or_eq_true, beq_iff_eq]
  tauto

/-! ### Claim C9 -/

/-- Claim C9: an attribute with a name child and no value child renders as
the name, `=`, then the name again surrounded by single quotes. -/
theorem c9_boolean_attribute :
    ∀ (a nameNode : SNode) (source : List Char) (s s' : State),
      a.namedChildren = [nameNode] →
      visit_attribute a source s = some s' →
      s'.html_text = s.html_text ++ utf8_text source nameNode.range ++ "=".toList ++
        squote ++ utf8_text source nameNode.range ++ squote := by
  intro a nameNode source s s' h hv
  unfold visit_attribute at hv
  rw [h] at hv
  simp only [List.head?_nil] at hv
  injection hv with hv
  subst hv
  simp [push_range_surround, push_range, List.append_assoc]

/-- Witness for C9 at the concrete boolean attribute `foo`. -/
theorem c9_witness :
    exA_result.html_text = ([] : List Char) ++ "foo".toList ++ "=".toList ++
      squote ++ "foo".toList ++ squote :=
  c9_boolean_attribute exA_attr exA_name exA_src
    { html_text := [], pug_text := exA_src, ranges := [] } exA_result
    rfl (by decide)

/-! ### Claim C10 -/

/-- Claim C10: an attribute whose value kind is neither `javascript` nor
`quoted_attribute_value` renders only the name and `=`, records only the name,
and the attribute loop continues with the remaining attributes. -/
theorem c10_unknown_value_kind :
    ∀ (a nameNode valueNode : SNode) (vrest : List SNode) (source : List Char) (s : State),
      a.namedChildren = nameNode :: valueNode :: vrest →
      ¬valueNode.kind = "javascript" →
      ¬valueNode.kind = "quoted_attribute_value" →
      visit_attribute a source s = some
        { html_text := s.html_text ++ utf8_text source nameNode.range ++ "=".toList
          pug_text := s.pug_text
          ranges := s.ranges ++
            [{ html_start := s.html_text.length
               html_end := s.html_text.length + (utf8_text source nameNode.range).length
               pug_start := nameNode.range.start_byte
               pug_end := nameNode.range.end_byte }] } ∧
      ∀ (more : List SNode),
        visit_attributes_list (a :: more) true source s =
          visit_attributes_list more false source
            { html_text := s.html_text ++ utf8_text source nameNode.range ++ "=".toList
              pug_text := s.pug_text
              ranges := s.ranges ++
                [{ html_start := s.html_text.length
                   html_end := s.html_text.length + (utf8_text source nameNode.range).length
                   pug_start := nameNode.range.start_byte
                   pug_end := nameNode.range.end_byte }] } := by
  intro a nameNode valueNode vrest source s h h1 h2
  have hva : visit_attribute a source s = some
      { html_text := s.html_text ++ utf8_text source nameNode.range ++ "=".toList
        pug_text := s.pug_text
        ranges := s.ranges ++
          [{ html_start := s.html_text.length
             html_end := s.html_text.length + (utf8_text source nameNode.range).length
             pug_start := nameNode.range.start_byte
             pug_end := nameNode.range.end_byte }] } := by
    unfold visit_attribute
    rw [h]
    simp only [List.head?_cons]
    simp [push_range, List.append_assoc]
  refine ⟨hva, ?_⟩
  intro more
  have hstep : visit_attributes_list (a :: more) true source s =
      match visit_attribute a source s with
      | some s1 => visit_attributes_list more false source s1
      | none => none := rfl
  rw [hstep, hva]

/-- Witness for C10 at the concrete attribute `a=b` with value kind
`other_value`. -/
theorem c10_witness :
    visit_attribute exH_attr exH_src { html_text := [], pug_text := exH_src, ranges := [] } =
      some
        { html_text := ([] : List Char) ++ "a".toList ++ "=".toList
          pug_text := exH_src
          ranges := [] ++ [{ html_start := 0, html_end := 0 + ("a".toList : List Char).length
                             pug_start := 0, pug_end := 1 }] } ∧
    ∀ (more : List SNode),
      visit_attributes_list (exH_attr :: more) true exH_src
          { html_text := [], pug_text := exH_src, ranges := [] } =
        visit_attributes_list more false exH_src
          { html_text := ([] : List Char) ++ "a".toList ++ "=".toList
            pug_text := exH_src
            ranges := [] ++ [{ html_start := 0, html_end := 0 + ("a".toList : List Char).length
                               pug_start := 0, pug_end := 1 }] } := by
  have h := c10_unknown_value_kind exH_attr exH_name exH_value [] exH_src
    { html_text := [], pug_text := exH_src, ranges := [] }
    rfl (by decide) (by decide)
  exact h

/-! ### Claim C2 -/

/-- Claim C2, counterexample: transpiling the attributes block of the boolean
attribute `foo` produces TWO records.  The second record covers the output
span `[5, 8)` — exactly the synthesized attribute value between the quotes —
and maps it to the attribute name span `[0, 3)`.  The claim asserts that a
synthesized boolean-attribute value produces no record at all. -/
theorem c2_counterexample :
    traverse_tree exA_attrs exA_src { html_text := [], pug_text := exA_src, ranges := [] } =
      some exA_result ∧
    exA_result.ranges.length = 2 ∧
    (⟨8, 5, 3, 0⟩ : Range) ∈ exA_result.ranges := by
  refine ⟨?_, by decide, by decide⟩
  simp [traverse_tree, visit_attributes, visit_attributes_list, visit_attribute,
    exA_attrs, exA_attr, exA_name, exA_src, exA_result, push_range, push_range_surround,
    utf8_text, SNode.namedChildren, SNode.children, SNode.kind, SNode.is_named, SNode.range,
    squote]

/-- Claim C2 (amended): appends of synthesized punctuation (the `, `
separator, `=`, and the surrounding quotes) pass no source range and create
no record; but the value synthesized for a boolean attribute is recorded,
with a correspondence mapping it to the attribute name's source span. -/
theorem c2_synthesized_records :
    (∀ (s : State) (t : List Char), (push_range s t none).ranges = s.ranges) ∧
    (∀ (a nameNode : SNode) (source : List Char) (s s' : State),
      a.namedChildren = [nameNode] →
      visit_attribute a source s = some s' →
      s'.ranges = s.ranges ++
        [{ html_start := s.html_text.length
           html_end := s.html_text.length + (utf8_text source nameNode.range).length
           pug_start := nameNode.range.start_byte
           pug_end := nameNode.range.end_byte },
         { html_start := s.html_text.length + (utf8_text source nameNode.range).length + 2
           html_end := s.html_text.length + (utf8_text source nameNode.range).length + 2 +
             (utf8_text source nameNode.range).length
           pug_start := nameNode.range.start_byte
           pug_end := nameNode.range.end_byte }]) := by
  constructor
  · intro s t; rfl
  · intro a nameNode source s s' h hv
    unfold visit_attribute at hv
    rw [h] at hv
    simp only [List.head?_nil] at hv
    injection hv with hv
    subst hv
    simp [push_range_surround, push_range, List.length_append, squote]
    omega

/-- Witness for the amended C2 at the boolean attribute `foo`. -/
theorem c2_witness :
    (push_range { html_text := [], pug_text := ([] : List Char), ranges := [] }
      "ab".toList none).ranges = [] ∧
    exA_result.ranges = [] ++
      [{ html_start := 0, html_end := 0 + ("foo".toList : List Char).length
         pug_start := 0, pug_end := 3 },
       { html_start := 0 + ("foo".toList : List Char).length + 2
         html_end := 0 + ("foo".toList : List Char).length + 2 + ("foo".toList : List Char).length
         pug_start := 0, pug_end := 3 }] := by
  refine ⟨c2_synthesized_records.1 _ _, ?_⟩
  have h := c2_synthesized_records.2 exA_attr exA_name exA_src
    { html_text := [], pug_text := exA_src, ranges := [] } exA_result
    rfl (by decide)
  exact h

/-! ### Claim C1 -/

/-- Claim C1: a recorded append yields a record whose output span starts at
the buffer length before the append and whose length is the byte length of
the exact text appended; consequently any transpilation run starting from the
empty buffer produces records in non-decreasing output-start order. -/
theorem c1_record_exact_and_sorted :
    (∀ (s : State) (t : List Char) (rg : TSRange),
      (push_range s t (some rg)).ranges = s.ranges ++
        [{ html_start := s.html_text.length
           html_end := s.html_text.length + t.length
           pug_start := rg.start_byte
           pug_end := rg.end_byte }]) ∧
    (∀ (node : SNode) (source pug : List Char) (s' : State),
      traverse_tree node source { html_text := [], pug_text := pug, ranges := [] } = some s' →
      List.Chain' (fun a b => a.html_start ≤ b.html_start) s'.ranges) := by
  constructor
  · intro s t rg; rfl
  · intro node source pug s' h
    have hb := traverse_tree_builds h
    have h0 : RangesOK { html_text := [], pug_text := pug, ranges := [] } := by
      refine ⟨List.chain'_nil, ?_⟩
      intro r hr
      cases hr
    exact (hb.rangesOK h0).1

/-- Witness for C1: the record produced by one concrete recorded append, and
the sortedness of the record list of a concrete attributes-block run. -/
theorem c1_witness :
    (push_range { html_text := "x".toList, pug_text := [], ranges := [] } "yz".toList
        (some ⟨4, 6⟩)).ranges =
      ([] : List Range) ++
        [{ html_start := ("x".toList : List Char).length
           html_end := ("x".toList : List Char).length + ("yz".toList : List Char).length
           pug_start := 4
           pug_end := 6 }] ∧
    List.Chain' (fun a b => a.html_start ≤ b.html_start) exA_result.ranges := by
  constructor
  · exact c1_record_exact_and_sorted.1 { html_text := "x".toList, pug_text := [], ranges := [] }
      "yz".toList ⟨4, 6⟩
  · exact c1_record_exact_and_sorted.2 exA_attrs exA_src exA_src exA_result (by
      simp [traverse_tree, visit_attributes, visit_attributes_list, visit_attribute,
        exA_attrs, exA_attr, exA_name, exA_src, exA_result, push_range, push_range_surround,
        utf8_text, SNode.namedChildren, SNode.children, SNode.kind, SNode.is_named,
        SNode.range, squote])

/-! ### Claims C3 and C4 -/

/-- The self-closed shape claimed for void tags: `<name .../>`. -/
def selfClosedShape (name html : List Char) : Prop :=
  ∃ mid, html = "<".toList ++ name ++ mid ++ "/>".toList

/-- The opened-and-closed shape claimed for non-void tags:
`<name ...>...</name>`. -/
def openClosedShape (name html : List Char) : Prop :=
  ∃ mid inner, html = "<".toList ++ name ++ mid ++ ">".toList ++ inner ++
    ("</".toList ++ name ++ ">".toList)

/-- Claim C3, counterexample: the void tag `br` with a content child renders
as `<br/>>` — the loop pushes `/>` and breaks without setting the
open-tag-closed flag, so the post-loop `>` is pushed as well.  The output
matches neither of the two claimed shapes. -/
theorem c3_counterexample :
    traverse_tree exB_tag exB_src { html_text := [], pug_text := exB_src, ranges := [] } =
      some { html_text := "<br/>>".toList, pug_text := exB_src, ranges := [⟨3, 1, 2, 0⟩] } ∧
    ¬selfClosedShape "br".toList "<br/>>".toList ∧
    ¬openClosedShape "br".toList "<br/>>".toList := by
  refine ⟨?_, ?_, ?_⟩
  · rw [@tt_tag exB_tag exB_src _ rfl rfl, @vt_cons exB_tag exB_name [exB_content] exB_src _ rfl,
      @vtl_void exB_content (utf8_text exB_src exB_name.range) [] exB_src _ false
        (by decide) (by decide)]
    simp only []
    decide
  · rintro ⟨mid, hm⟩
    have hl := congrArg List.length hm
    simp at hl
    rcases mid with _ | ⟨c, _ | ⟨d, t⟩⟩ <;> simp_all
  · rintro ⟨mid, inner, hm⟩
    have hl := congrArg List.length hm
    simp at hl
    omega

/-- Claim C3 (amended): a non-void tag always produces the opened-and-closed
shape; a void tag never emits a closing tag, but with only attribute children
its output ends in a plain `>` (no `/>`), and with a non-attribute child its
output ends in `/>` followed by a stray `>`. -/
theorem c3_tag_shapes :
    ∀ (node name_node : SNode) (rest : List SNode) (source : List Char) (s s' : State),
      node.kind = "tag" → node.is_named = true →
      node.namedChildren = name_node :: rest →
      traverse_tree node source s = some s' →
      ((is_void_element (utf8_text source name_node.range) = false →
          ∃ mid inner, s'.html_text = s.html_text ++ "<".toList ++
            utf8_text source name_node.range ++ mid ++ ">".toList ++ inner ++
            ("</".toList ++ utf8_text source name_node.range ++ ">".toList)) ∧
       (is_void_element (utf8_text source name_node.range) = true →
          (∀ c ∈ rest, c.kind = "attributes") →
          ∃ mid, s'.html_text = s.html_text ++ "<".toList ++
            utf8_text source name_node.range ++ mid ++ ">".toList) ∧
       (is_void_element (utf8_text source name_node.range) = true →
          ¬(∀ c ∈ rest, c.kind = "attributes") →
          ∃ mid, s'.html_text = s.html_text ++ "<".toList ++
            utf8_text source name_node.range ++ mid ++ "/>".toList ++ ">".toList)) := by
  intro node name_node rest source s s' hk hn hnc h
  rw [tt_tag source s hn hk, vt_cons source s hnc] at h
  cases hloop : visit_tag_loop (utf8_text source name_node.range) rest source
      (push_range (push_range s "<".toList none)
        (utf8_text source name_node.range) (some name_node.range)) false with
  | none => rw [hloop] at h; cases h
  | some pair =>
    obtain ⟨s3, hc⟩ := pair
    rw [hloop] at h
    simp only [] at h
    injection h with h
    subst h
    have hs2html : (push_range (push_range s "<".toList none)
        (utf8_text source name_node.range) (some name_node.range)).html_text =
        s.html_text ++ "<".toList ++ utf8_text source name_node.range := by
      rw [push_range_html, push_range_html]
    refine ⟨?_, ?_, ?_⟩
    · intro hv
      by_cases hall : ∀ c ∈ rest, c.kind = "attributes"
      · obtain ⟨hcb, t, ht⟩ := loop_all_attrs (utf8_text source name_node.range) source
          rest _ s3 false hc hall hloop
        subst hcb
        rw [if_neg Bool.false_ne_true, if_neg (by simp [hv])]
        refine ⟨t, [], ?_⟩
        rw [push_range_html, push_range_html, ht, hs2html]
        try simp [List.append_assoc]
      · obtain ⟨P, c, rest', hre, hP, hcne⟩ := first_split rest hall
        subst hre
        obtain ⟨hcb, t, u, ht⟩ := loop_nonvoid_first (utf8_text source name_node.range)
          source hv P c rest' _ s3 hc hP hcne hloop
        subst hcb
        rw [if_pos rfl, if_neg (by simp [hv])]
        refine ⟨t, u, ?_⟩
        rw [push_range_html, ht, hs2html]
        try simp [List.append_assoc]
    · intro hv hall
      obtain ⟨hcb, t, ht⟩ := loop_all_attrs (utf8_text source name_node.range) source
        rest _ s3 false hc hall hloop
      subst hcb
      rw [if_neg Bool.false_ne_true, if_pos hv]
      refine ⟨t, ?_⟩
      rw [push_range_html, ht, hs2html]
      try simp [List.append_assoc]
    · intro hv hnall
      obtain ⟨P, c, rest', hre, hP, hcne⟩ := first_split rest hnall
      subst hre
      obtain ⟨hcb, t, ht⟩ := loop_void_break (utf8_text source name_node.range) source hv
        P c rest' _ s3 false hc hP hcne hloop
      subst hcb
      rw [if_neg Bool.false_ne_true, if_pos hv]
      refine ⟨t, ?_⟩
      rw [push_range_html, ht, hs2html]
      try simp [List.append_assoc]

/-- Witness for the amended C3: the non-void tag `p` with no further children
renders in the opened-and-closed shape. -/
theorem c3_witness :
    ∃ mid inner, ("<p></p>".toList : List Char) = ([] : List Char) ++ "<".toList ++
      "p".toList ++ mid ++ ">".toList ++ inner ++
      ("</".toList ++ "p".toList ++ ">".toList) :=
  (c3_tag_shapes exD_tag exD_name [] exD_src
    { html_text := [], pug_text := exD_src, ranges := [] }
    { html_text := "<p></p>".toList, pug_text := exD_src, ranges := [⟨2, 1, 1, 0⟩] }
    rfl rfl rfl
    (by
      rw [@tt_tag exD_tag exD_src _ rfl rfl, @vt_cons exD_tag exD_name [] exD_src _ rfl, vtl_nil]
      simp only []
      decide)).1 rfl

/-- Claim C4, counterexample: the void tag `br` with no child beyond its name
renders as `<br>` — the `/>` the claim requires is never emitted. -/
theorem c4_counterexample :
    traverse_tree exC_tag exC_src { html_text := [], pug_text := exC_src, ranges := [] } =
      some { html_text := "<br>".toList, pug_text := exC_src, ranges := [⟨3, 1, 2, 0⟩] } ∧
    ¬("/>".toList <:+ "<br>".toList) := by
  constructor
  · rw [@tt_tag exC_tag exC_src _ rfl rfl, @vt_cons exC_tag exC_name [] exC_src _ rfl, vtl_nil]
    simp only []
    decide
  · rintro ⟨t, ht⟩
    have hl := congrArg List.length ht
    simp at hl
    rcases t with _ | ⟨c, _ | ⟨d, u⟩⟩ <;> simp_all

/-- Claim C4 (amended): for a tag whose named children after the name are all
attribute blocks, a void name yields output extended by `<name ... >` with no
closing tag (and no `/>`), while a non-void name yields `<name ... >`
followed immediately by the synthesized `</name>`. -/
theorem c4_attr_only_tags :
    ∀ (node name_node : SNode) (rest : List SNode) (source : List Char) (s s' : State),
      node.kind = "tag" → node.is_named = true →
      node.namedChildren = name_node :: rest →
      (∀ c ∈ rest, c.kind = "attributes") →
      traverse_tree node source s = some s' →
      ((is_void_element (utf8_text source name_node.range) = true →
          ∃ mid, s'.html_text = s.html_text ++ "<".toList ++
            utf8_text source name_node.range ++ mid ++ ">".toList) ∧
       (is_void_element (utf8_text source name_node.range) = false →
          ∃ mid, s'.html_text = s.html_text ++ "<".toList ++
            utf8_text source name_node.range ++ mid ++ ">".toList ++
            ("</".toList ++ utf8_text source name_node.range ++ ">".toList))) := by
  intro node name_node rest source s s' hk hn hnc hall h
  rw [tt_tag source s hn hk, vt_cons source s hnc] at h
  cases hloop : visit_tag_loop (utf8_text source name_node.range) rest source
      (push_range (push_range s "<".toList none)
        (utf8_text source name_node.range) (some name_node.range)) false with
  | none => rw [hloop] at h; cases h
  | some pair =>
    obtain ⟨s3, hc⟩ := pair
    rw [hloop] at h
    simp only [] at h
    injection h with h
    subst h
    have hs2html : (push_range (push_range s "<".toList none)
        (utf8_text source name_node.range) (some name_node.range)).html_text =
        s.html_text ++ "<".toList ++ utf8_text source name_node.range := by
      rw [push_range_html, push_range_html]
    obtain ⟨hcb, t, ht⟩ := loop_all_attrs (utf8_text source name_node.range) source
      rest _ s3 false hc hall hloop
    subst hcb
    constructor
    · intro hv
      rw [if_neg Bool.false_ne_true, if_pos hv]
      refine ⟨t, ?_⟩
      rw [push_range_html, ht, hs2html]
      try simp [List.append_assoc]
    · intro hv
      rw [if_neg Bool.false_ne_true, if_neg (by simp [hv])]
      refine ⟨t, ?_⟩
      rw [push_range_html, push_range_html, ht, hs2html]
      try simp [List.append_assoc]

/-- Witness for the amended C4: the bare void tag `br` renders as `<br>`. -/
theorem c4_witness :
    ∃ mid, ("<br>".toList : List Char) = ([] : List Char) ++ "<".toList ++
      "br".toList ++ mid ++ ">".toList :=
  (c4_attr_only_tags exC_tag exC_name [] exC_src
    { html_text := [], pug_text := exC_src, ranges := [] }
    { html_text := "<br>".toList, pug_text := exC_src, ranges := [⟨3, 1, 2, 0⟩] }
    rfl rfl rfl (by intro c hc; cases hc)
    (by
      rw [@tt_tag exC_tag exC_src _ rfl rfl, @vt_cons exC_tag exC_name [] exC_src _ rfl, vtl_nil]
      simp only []
      decide)).1 rfl

/-! ### Claim C6 -/

def exI_src : List Char := "ab cde".toList

def exI_open : SNode := SNode.mk "interp_open" false ⟨3, 5⟩ []

def exI_close : SNode := SNode.mk "interp_close" false ⟨5, 6⟩ []

/-- A nested interpolation with no named child (an empty interpolation): its
two children are both anonymous delimiters. -/
def exI_interp : SNode := SNode.mk "escaped_string_interpolation" true ⟨3, 6⟩
  [exI_open, exI_close]

def exI_content : SNode := SNode.mk "content" true ⟨0, 6⟩ [exI_interp]

/-- Claim C6, counterexample: a content node with one nested interpolation
child that has no named expression child.  The interpolation is rendered
first but produces NO output and NO correspondence record (the renderer's
`none` branch), so the whole run yields exactly one record — the content
node's own — where the claim's "all nested interpolation children are
rendered first (each producing its own correspondence record)" predicts a
record for the interpolation as well. -/
theorem c6_counterexample :
    traverse_tree exI_content exI_src { html_text := [], pug_text := exI_src, ranges := [] } =
      some { html_text := "ab cde".toList, pug_text := exI_src, ranges := [⟨6, 0, 6, 0⟩] } ∧
    ({ html_text := "ab cde".toList, pug_text := exI_src,
       ranges := [⟨6, 0, 6, 0⟩] } : State).ranges.length = 1 := by
  constructor
  · rw [@tt_content exI_content exI_src _ rfl rfl]
    rw [show exI_content.namedChildren = [exI_interp] from rfl]
    rw [tc_cons, @tt_escaped_none exI_interp exI_src _ rfl rfl rfl]
    simp only []
    rw [tc_nil]
    simp only []
    decide
  · rfl

/-- Claim C6 (amended): for EVERY content construct, all named children are
traversed first, and only afterwards is the content node's own full verbatim
source text appended as one final correspondence record spanning the entire
content node's source range.  Each nested interpolation with a named
expression child produces exactly one record of its own, mapped to that
child's span; a nested interpolation with no named child renders nothing and
produces no record.  With exactly one non-empty nested interpolation this
yields two separate, ordered records. -/
theorem c6_content_order :
    (∀ (node : SNode) (source : List Char) (s s' : State),
      node.kind = "content" → node.is_named = true →
      traverse_tree node source s = some s' →
      ∃ s1, traverse_children node.namedChildren source s = some s1 ∧
        s' = push_range s1 (utf8_text source node.range) (some node.range) ∧
        s'.html_text = s1.html_text ++ utf8_text source node.range ∧
        s'.ranges = s1.ranges ++
          [{ html_start := s1.html_text.length
             html_end := s1.html_text.length + (utf8_text source node.range).length
             pug_start := node.range.start_byte
             pug_end := node.range.end_byte }]) ∧
    (∀ (interp e : SNode) (source : List Char) (s : State),
      interp.kind = "escaped_string_interpolation" → interp.is_named = true →
      interp.namedChildren.head? = some e →
      ∃ s2, traverse_tree interp source s = some s2 ∧
        s2.html_text = s.html_text ++ "<script>return ".toList ++ utf8_text source e.range ++
          ";</script>".toList ∧
        s2.ranges = s.ranges ++
          [{ html_start := s.html_text.length + 15
             html_end := s.html_text.length + 15 + (utf8_text source e.range).length
             pug_start := e.range.start_byte
             pug_end := e.range.end_byte }]) ∧
    (∀ (interp : SNode) (source : List Char) (s : State),
      interp.kind = "escaped_string_interpolation" → interp.is_named = true →
      interp.namedChildren.head? = none →
      traverse_tree interp source s = some s) ∧
    (∀ (node interp e : SNode) (source : List Char) (s s' : State),
      node.kind = "content" → node.is_named = true →
      node.namedChildren = [interp] →
      interp.kind = "escaped_string_interpolation" →
      interp.namedChildren.head? = some e →
      traverse_tree node source s = some s' →
      s'.html_text = s.html_text ++ "<script>return ".toList ++ utf8_text source e.range ++
        ";</script>".toList ++ utf8_text source node.range ∧
      s'.ranges = s.ranges ++
        [{ html_start := s.html_text.length + 15
           html_end := s.html_text.length + 15 + (utf8_text source e.range).length
           pug_start := e.range.start_byte
           pug_end := e.range.end_byte },
         { html_start := s.html_text.length + 25 + (utf8_text source e.range).length
           html_end := s.html_text.length + 25 + (utf8_text source e.range).length +
             (utf8_text source node.range).length
           pug_start := node.range.start_byte
           pug_end := node.range.end_byte }]) := by
  refine ⟨?_, ?_, ?_, ?_⟩
  · intro node source s s' h1 h2 h6
    rw [tt_content source s h2 h1] at h6
    cases htc : traverse_children node.namedChildren source s with
    | none => rw [htc] at h6; cases h6
    | some s1 =>
      rw [htc] at h6
      simp only [] at h6
      injection h6 with h6
      subst h6
      refine ⟨s1, rfl, rfl, ?_, rfl⟩
      rw [push_range_html]
  · intro interp e source s hk hn hic
    refine ⟨_, tt_escaped_some source s hn hk hic, ?_, ?_⟩
    · rw [push_range_html, push_range_html, push_range_html]
    · have l1 : ("<script>return ".toList : List Char).length = 15 := rfl
      simp [push_range, List.length_append, l1]
  · intro interp source s hk hn hic
    exact tt_escaped_none source s hn hk hic
  · intro node interp e source s s' h1 h2 h3 h4 h5 h6
    have hnamed : interp.is_named = true := by
      have hm : interp ∈ node.namedChildren := by rw [h3]; exact List.mem_singleton_self _
      unfold SNode.namedChildren at hm
      simpa using (List.mem_filter.mp hm).2
    have hmid : traverse_children node.namedChildren source s = some
        (push_range (push_range (push_range s "<script>return ".toList none)
          (utf8_text source e.range) (some e.range)) ";</script>".toList none) := by
      rw [h3, tc_cons, tt_escaped_some source s hnamed h4 h5]
      simp only []
      rw [tc_nil]
    rw [tt_content source s h2 h1, hmid] at h6
    simp only [] at h6
    injection h6 with h6
    subst h6
    constructor
    · rw [push_range_html, push_range_html, push_range_html, push_range_html]
    · have l1 : ("<script>return ".toList : List Char).length = 15 := rfl
      have l2 : (";</script>".toList : List Char).length = 10 := rfl
      simp [push_range, List.length_append, List.append_assoc, l1, l2, Range.mk.injEq]
      omega

/-- Witness for the amended C6: the concrete content node `ab #{x}` with its
one non-empty nested interpolation yields the two ordered records, and the
concrete empty interpolation of `exI_interp` is rendered with no output and
no record. -/
theorem c6_witness :
    (({ html_text := "<script>return x;</script>ab #{x}".toList, pug_text := exE_src,
        ranges := [⟨16, 15, 6, 5⟩, ⟨33, 26, 7, 0⟩] } : State).html_text =
      ([] : List Char) ++ "<script>return ".toList ++ "x".toList ++ ";</script>".toList ++
        "ab #{x}".toList ∧
     ({ html_text := "<script>return x;</script>ab #{x}".toList, pug_text := exE_src,
        ranges := [⟨16, 15, 6, 5⟩, ⟨33, 26, 7, 0⟩] } : State).ranges =
      ([] : List Range) ++
        [{ html_start := 15, html_end := 16, pug_start := 5, pug_end := 6 },
         { html_start := 26, html_end := 33, pug_start := 0, pug_end := 7 }]) ∧
    traverse_tree exI_interp exI_src { html_text := [], pug_text := exI_src, ranges := [] } =
      some { html_text := [], pug_text := exI_src, ranges := [] } := by
  constructor
  · have h := c6_content_order.2.2.2 exE_content exE_interp exE_expr exE_src
      { html_text := [], pug_text := exE_src, ranges := [] }
      { html_text := "<script>return x;</script>ab #{x}".toList, pug_text := exE_src,
        ranges := [⟨16, 15, 6, 5⟩, ⟨33, 26, 7, 0⟩] }
      rfl rfl rfl rfl rfl
      (by
        rw [@tt_content exE_content exE_src _ rfl rfl]
        rw [show exE_content.namedChildren = [exE_interp] from rfl]
        rw [tc_cons, @tt_escaped_some exE_interp exE_expr exE_src _ rfl rfl rfl]
        simp only []
        rw [tc_nil]
        simp only []
        decide)
    exact h
  · exact c6_content_order.2.2.1 exI_interp exI_src
      { html_text := [], pug_text := exI_src, ranges := [] } rfl rfl rfl

/-! ### Claim C7 -/

/-- Claim C7: a conditional whose second child is a `javascript` condition
expression emits the synthesized `<script>return `, then the expression's
verbatim text recorded against the expression's source span, then the
synthesized `;</script>`, and immediately afterwards traverses the
conditional's body (the named children of its fourth child) unconditionally
and in document order. -/
theorem c7_conditional_marker :
    ∀ (node c0 c1 c2 c3 : SNode) (source : List Char) (s s' : State),
      node.kind = "conditional" → node.is_named = true →
      node.children = [c0, c1, c2, c3] →
      c1.kind = "javascript" →
      traverse_tree node source s = some s' →
      ∃ s_mid,
        s_mid = push_range (push_range (push_range s "<script>return ".toList none)
          (utf8_text source c1.range) (some c1.range)) ";</script>".toList none ∧
        s_mid.html_text = s.html_text ++ "<script>return ".toList ++
          utf8_text source c1.range ++ ";</script>".toList ∧
        s_mid.ranges = s.ranges ++
          [{ html_start := s.html_text.length + 15
             html_end := s.html_text.length + 15 + (utf8_text source c1.range).length
             pug_start := c1.range.start_byte
             pug_end := c1.range.end_byte }] ∧
        traverse_children c3.namedChildren source s_mid = some s' := by
  intro node c0 c1 c2 c3 source s s' h1 h2 h3 h4 h5
  have hg1 : node.children.getD (clamp_next 0 node.children.length) default = c1 := by
    rw [h3]; rfl
  have hg3 : node.children.getD (clamp_next (clamp_next (clamp_next 0 node.children.length)
      node.children.length) node.children.length) default = c3 := by
    rw [h3]; rfl
  rw [tt_conditional source s h2 h1] at h5
  rw [vc_js source s h3 (by rw [hg1]; exact h4)] at h5
  rw [hg1, hg3] at h5
  refine ⟨_, rfl, ?_, ?_, h5⟩
  · rw [push_range_html, push_range_html, push_range_html]
  · have l1 : ("<script>return ".toList : List Char).length = 15 := rfl
    simp [push_range, List.length_append, l1]

/-- Witness for C7 at the concrete conditional `if x > 1:p` (with an empty
body block). -/
theorem c7_witness :
    ∃ s_mid,
      s_mid = push_range (push_range (push_range
          { html_text := [], pug_text := exF_src, ranges := [] } "<script>return ".toList none)
        (utf8_text exF_src exF_js.range) (some exF_js.range)) ";</script>".toList none ∧
      s_mid.html_text = ([] : List Char) ++ "<script>return ".toList ++
        utf8_text exF_src exF_js.range ++ ";</script>".toList ∧
      s_mid.ranges = ([] : List Range) ++
        [{ html_start := 15, html_end := 20, pug_start := 3, pug_end := 8 }] ∧
      traverse_children exF_body.namedChildren exF_src s_mid =
        some { html_text := "<script>return x > 1;</script>".toList, pug_text := exF_src,
               ranges := [⟨20, 15, 8, 3⟩] } := by
  have h := c7_conditional_marker exF_cond exF_kw exF_js exF_colon exF_body exF_src
    { html_text := [], pug_text := exF_src, ranges := [] }
    { html_text := "<script>return x > 1;</script>".toList, pug_text := exF_src,
      ranges := [⟨20, 15, 8, 3⟩] }
    rfl rfl rfl rfl
    (by
      rw [@tt_conditional exF_cond exF_src _ rfl rfl,
        @vc_js exF_cond exF_kw [exF_js, exF_colon, exF_body] exF_src _ rfl (by decide)]
      rw [show ((exF_cond.children.getD
          (clamp_next (clamp_next (clamp_next 0 exF_cond.children.length)
            exF_cond.children.length) exF_cond.children.length) default).namedChildren) =
        ([] : List SNode) from rfl]
      rw [tc_nil]
      decide)
  exact h

/-! ### Claim C8 -/

/-- Claim C8, counterexample: a `tag_interpolation` whose children are the
opening delimiter and one named `comment` child (text `a`) produces EMPTY
output: the renderer traverses the named children of the second child (there
are none) and wraps nothing.  The claim predicts the remaining named child is
wrapped as `<script>return a;</script>`, a non-empty output. -/
theorem c8_counterexample :
    traverse_tree exG_tin exG_src { html_text := [], pug_text := exG_src, ranges := [] } =
      some { html_text := [], pug_text := exG_src, ranges := [] } ∧
    ∀ t : List Char, ([] : List Char) ≠ "<script>return ".toList ++ "a".toList ++
      ";</script>".toList ++ t := by
  constructor
  · rw [@tt_tag_interpolation exG_tin exG_src _ rfl rfl,
      @vti_cons exG_tin exG_delim [exG_comment] exG_src _ rfl]
    rw [show ((exG_tin.children.getD (clamp_next 0 exG_tin.children.length)
        default).namedChildren) = ([] : List SNode) from rfl]
    rw [tc_nil]
  · intro t h
    have hl := congrArg List.length h
    simp at hl

/-- Claim C8 (amended): the tag-interpolation renderer moves to the
construct's second child and traverses the named children of that child
through the dispatcher; it performs no marker wrapping of its own (markers
arise only when those children are themselves string interpolations). -/
theorem c8_tag_interpolation_routes :
    ∀ (node c0 c1 : SNode) (rest : List SNode) (source : List Char) (s : State),
      node.kind = "tag_interpolation" → node.is_named = true →
      node.children = c0 :: c1 :: rest →
      traverse_tree node source s = traverse_children c1.namedChildren source s := by
  intro node c0 c1 rest source s hk hn hch
  rw [tt_tag_interpolation source s hn hk, vti_cons source s hch]
  have hg : node.children.getD (clamp_next 0 node.children.length) default = c1 := by
    rw [hch]
    unfold clamp_next
    rw [if_pos (by simp only [List.length_cons]; omega)]
    rfl
  rw [hg]

/-- Witness for the amended C8 at the concrete tag interpolation `#[a]`. -/
theorem c8_witness :
    traverse_tree exG_tin exG_src { html_text := [], pug_text := exG_src, ranges := [] } =
      traverse_children exG_comment.namedChildren exG_src
        { html_text := [], pug_text := exG_src, ranges := [] } :=
  c8_tag_interpolation_routes exG_tin exG_delim exG_comment [] exG_src
    { html_text := [], pug_text := exG_src, ranges := [] } rfl rfl rfl

end Pug
